import Mathlib

/-!
Shallow embedding of the `unicode-reverse` crate (`src/lib.rs`).

The crate exposes a single function, `reverse_grapheme_clusters_in_place`,
which reverses the grapheme clusters of a UTF-8 string in place in two passes:

1. for each grapheme cluster (obtained by repeatedly asking the segmenter for
   the first grapheme of the remaining tail), reverse the bytes of that
   cluster in place;
2. reverse the bytes of the whole buffer in place;

finally a debug assertion checks that the resulting bytes are valid UTF-8.

A buffer is a `List Nat` of byte values.  The grapheme segmenter is the
external `unicode_segmentation` crate, which is not part of this repository:
the embedding is parametric in a segmenter `next : List Nat → Option Nat`
giving the byte length of the first grapheme of a buffer (`none` on the empty
buffer), and the theorems assume the contract the specification states for it.
A small concrete segmenter, modelled from the specification's description of
the Unicode segmentation rules, instantiates the theorems on concrete inputs.

Pass 1 is embedded with explicit fuel: `none` models a run of the Rust loop
that panics (the split index is out of bounds) or never terminates (the
segmenter keeps returning length 0), both of which are impossible under the
segmenter contract.
-/

namespace UnicodeReverse

/-- A UTF-8 continuation byte: `0x80 ..= 0xBF`. -/
def isCont (b : Nat) : Bool := 0x80 ≤ b && b ≤ 0xBF

/-- Allowed second byte of a three-byte UTF-8 sequence with leading byte `b0`
(`0xE0` excludes overlong forms, `0xED` excludes surrogates). -/
def valid3 (b0 b1 : Nat) : Bool :=
  if b0 = 0xE0 then 0xA0 ≤ b1 && b1 ≤ 0xBF
  else if b0 = 0xED then 0x80 ≤ b1 && b1 ≤ 0x9F
  else isCont b1

/-- Allowed second byte of a four-byte UTF-8 sequence with leading byte `b0`
(`0xF0` excludes overlong forms, `0xF4` caps code points at `U+10FFFF`). -/
def valid4 (b0 b1 : Nat) : Bool :=
  if b0 = 0xF0 then 0x90 ≤ b1 && b1 ≤ 0xBF
  else if b0 = 0xF4 then 0x80 ≤ b1 && b1 ≤ 0x8F
  else isCont b1

/-- Byte length of the single valid UTF-8 character at the head of the
buffer, or `none` if the buffer is empty or starts with an invalid
sequence. -/
def utf8CharOk : List Nat → Option Nat
  | [] => none
  | b0 :: t0 =>
    if b0 < 0x80 then some 1
    else if b0 < 0xC2 then none
    else if b0 ≤ 0xDF then
      match t0 with
      | b1 :: _ => if isCont b1 then some 2 else none
      | [] => none
    else if b0 ≤ 0xEF then
      match t0 with
      | b1 :: b2 :: _ => if valid3 b0 b1 && isCont b2 then some 3 else none
      | _ => none
    else if b0 ≤ 0xF4 then
      match t0 with
      | b1 :: b2 :: b3 :: _ =>
        if valid4 b0 b1 && isCont b2 && isCont b3 then some 4 else none
      | _ => none
    else none

/-- Scanner for UTF-8 validity: consume one valid character at a time
(`fuel` bounds the recursion; the buffer's length is always enough, since
every character is at least one byte). -/
def validUtf8Go : Nat → List Nat → Bool
  | 0, l => l.isEmpty
  | fuel + 1, l =>
    match utf8CharOk l with
    | none => l.isEmpty
    | some n => validUtf8Go fuel (l.drop n)

/-- `str::from_utf8(bytes).is_ok()`: the byte list is well-formed UTF-8. -/
def validUtf8 (l : List Nat) : Bool := validUtf8Go l.length l

/-- Pass 1 of `reverse_grapheme_clusters_in_place` (`src/lib.rs` lines
100-119): scan the tail, and for each grapheme cluster the segmenter reports,
reverse that cluster's bytes in place.  `next tail = none` is the loop's
`break`; a reported length that `split_at_mut` would reject (`len >
tail.len()`) is the panic, modelled as `none`; fuel exhaustion models a
non-terminating loop (the segmenter returned length 0), also `none`. -/
def part1 (next : List Nat → Option Nat) : Nat → List Nat → Option (List Nat)
  | 0, _ => none
  | fuel + 1, tail =>
    match next tail with
    | none => some tail
    | some len =>
      if len ≤ tail.length then
        (part1 next fuel (tail.drop len)).map
          fun rest => (tail.take len).reverse ++ rest
      else none

/-- Does the pass-1 loop hit the out-of-bounds branch of `split_at_mut`
(a panic in Rust)?  Fuel exhaustion (a hang, not a panic) counts as `false`. -/
def part1Panics (next : List Nat → Option Nat) : Nat → List Nat → Bool
  | 0, _ => false
  | fuel + 1, tail =>
    match next tail with
    | none => false
    | some len =>
      if len ≤ tail.length then part1Panics next fuel (tail.drop len)
      else true

/-- The grapheme-cluster decomposition the pass-1 scan traverses: repeatedly
split off the first grapheme the segmenter reports. -/
def segmentGo (next : List Nat → Option Nat) : Nat → List Nat → List (List Nat)
  | 0, _ => []
  | fuel + 1, l =>
    match next l with
    | none => []
    | some len => l.take len :: segmentGo next fuel (l.drop len)

/-- The grapheme clusters of `s`, in order (enough fuel for the whole scan). -/
def segment (next : List Nat → Option Nat) (s : List Nat) : List (List Nat) :=
  segmentGo next (s.length + 1) s

/-- `reverse_grapheme_clusters_in_place` (`src/lib.rs` lines 96-132):
pass 1 reverses the bytes inside each grapheme cluster, pass 2 reverses the
bytes of the whole buffer.  `none` models a panicking or non-terminating run
(impossible under the segmenter contract). -/
def reverse_grapheme_clusters_in_place (next : List Nat → Option Nat)
    (s : List Nat) : Option (List Nat) :=
  (part1 next (s.length + 1) s).map List.reverse

/-- The naive reference the specification compares against: collect the
grapheme clusters of the string and concatenate them in reverse order. -/
def naive_reverse (next : List Nat → Option Nat) (s : List Nat) : List Nat :=
  ((segment next s).reverse).flatten

/-- One step of the segmenter contract from the specification: the segmenter
reports `none` exactly on the empty buffer, and on a non-empty buffer reports
a cluster length `n` with `1 ≤ n ≤ length` (clusters partition the buffer
with no gaps or overlaps). -/
def segStepOk (r : Option Nat) (t : List Nat) : Bool :=
  match r with
  | none => t.isEmpty
  | some n => decide (1 ≤ n) && decide (n ≤ t.length)

/-- The segmenter contract, instantiated on every suffix of `s` (the pass-1
scan only ever queries suffixes of the original buffer). -/
def segTotalOn (next : List Nat → Option Nat) (s : List Nat) : Bool :=
  s.tails.all fun t => segStepOk (next t) t

/-- One step of the UTF-8 part of the segmenter contract: on a valid buffer,
the reported cluster boundary is a character boundary, so the cluster and the
remaining tail are both valid UTF-8. -/
def segUtf8StepOk (r : Option Nat) (t : List Nat) : Bool :=
  match r with
  | none => true
  | some n => !validUtf8 t || (validUtf8 (t.take n) && validUtf8 (t.drop n))

/-- The UTF-8 part of the segmenter contract, instantiated on every suffix
of `s`. -/
def segUtf8On (next : List Nat → Option Nat) (s : List Nat) : Bool :=
  s.tails.all fun t => segUtf8StepOk (next t) t

/-- Modelled from the spec: the external segmentation crate is not part of
this repository's sources; this is the byte length of the one UTF-8 encoded
character starting at leading byte `b`, with a byte that cannot lead a
sequence counted as a single-byte cluster. -/
def utf8CharLen (b : Nat) : Nat :=
  if b < 0xC0 then 1
  else if b < 0xE0 then 2
  else if b < 0xF0 then 3
  else if b < 0xF8 then 4
  else 1

/-- Modelled from the spec: does the buffer start with a combining mark
(`U+0300 ..= U+036F`, the Combining Diacritical Marks range containing
`U+0303` COMBINING TILDE)? -/
def startsWithCombining : List Nat → Bool
  | 0xCC :: b :: _ => isCont b
  | 0xCD :: b :: _ => 0x80 ≤ b && b ≤ 0xAF
  | _ => false

/-- Modelled from the spec: total byte length of the run of combining marks
at the head of the buffer (`fuel` bounds the recursion; the buffer's length
is always enough fuel). -/
def extendLen : Nat → List Nat → Nat
  | 0, _ => 0
  | fuel + 1, l =>
    if startsWithCombining l then
      utf8CharLen (l.headD 0) + extendLen fuel (l.drop (utf8CharLen (l.headD 0)))
    else 0

/-- Modelled from the spec: a concrete grapheme segmenter following the
Unicode text segmentation rules the specification cites, restricted to the
rules the test inputs exercise: `CR LF` is a single cluster (rule GB3), any
other control character is a cluster by itself (rules GB4/GB5), and any other
character takes the following run of combining marks with it (rule GB9).
A truncated trailing sequence is clamped to the end of the buffer. -/
def uaxNext : List Nat → Option Nat
  | [] => none
  | 0x0D :: 0x0A :: _ => some 2
  | b :: t =>
    if b < 0x20 || b = 0x7F then some 1
    else
      some (min (utf8CharLen b) (b :: t).length +
        extendLen ((b :: t).drop (min (utf8CharLen b) (b :: t).length)).length
          ((b :: t).drop (min (utf8CharLen b) (b :: t).length)))

/-! ### Helper lemmas -/

theorem segTotalOn_none {next : List Nat → Option Nat} {s t : List Nat}
    (h : segTotalOn next s = true) (ht : t <:+ s) (hn : next t = none) :
    t = [] := by
  have h1 : segStepOk (next t) t = true := by
    simpa using List.all_eq_true.mp h t ((List.mem_tails t s).mpr ht)
  rw [hn] at h1
  simpa [segStepOk, List.isEmpty_iff] using h1

theorem segTotalOn_some {next : List Nat → Option Nat} {s t : List Nat} {n : Nat}
    (h : segTotalOn next s = true) (ht : t <:+ s) (hn : next t = some n) :
    1 ≤ n ∧ n ≤ t.length := by
  have h1 : segStepOk (next t) t = true := by
    simpa using List.all_eq_true.mp h t ((List.mem_tails t s).mpr ht)
  rw [hn] at h1
  simpa [segStepOk] using h1

theorem segUtf8On_some {next : List Nat → Option Nat} {s t : List Nat} {n : Nat}
    (h : segUtf8On next s = true) (ht : t <:+ s) (hn : next t = some n)
    (hv : validUtf8 t = true) :
    validUtf8 (t.take n) = true ∧ validUtf8 (t.drop n) = true := by
  have h1 : segUtf8StepOk (next t) t = true := by
    simpa using List.all_eq_true.mp h t ((List.mem_tails t s).mpr ht)
  rw [hn] at h1
  simpa [segUtf8StepOk, hv] using h1

theorem segmentGo_flatten {next : List Nat → Option Nat} {s : List Nat}
    (h : segTotalOn next s = true) :
    ∀ fuel t, t <:+ s → t.length < fuel → (segmentGo next fuel t).flatten = t := by
  intro fuel
  induction fuel with
  | zero => intro t _ hlt; omega
  | succ fuel ih =>
    intro t ht hlt
    cases hn : next t with
    | none =>
      have ht0 := segTotalOn_none h ht hn
      subst ht0
      simp [segmentGo, hn]
    | some n =>
      obtain ⟨h1, h2⟩ := segTotalOn_some h ht hn
      have hdrop : t.drop n <:+ s := (List.drop_suffix n t).trans ht
      have hlen : (t.drop n).length < fuel := by
        rw [List.length_drop]; omega
      simp [segmentGo, hn, ih (t.drop n) hdrop hlen, List.take_append_drop]

theorem segment_flatten {next : List Nat → Option Nat} {s : List Nat}
    (h : segTotalOn next s = true) : (segment next s).flatten = s :=
  segmentGo_flatten h (s.length + 1) s (List.suffix_refl s) (Nat.lt_succ_self _)

theorem part1_eq_segmentGo {next : List Nat → Option Nat} {s : List Nat}
    (h : segTotalOn next s = true) :
    ∀ fuel t, t <:+ s → t.length < fuel →
      part1 next fuel t = some ((segmentGo next fuel t).map List.reverse).flatten := by
  intro fuel
  induction fuel with
  | zero => intro t _ hlt; omega
  | succ fuel ih =>
    intro t ht hlt
    cases hn : next t with
    | none =>
      have ht0 := segTotalOn_none h ht hn
      subst ht0
      simp [part1, segmentGo, hn]
    | some n =>
      obtain ⟨h1, h2⟩ := segTotalOn_some h ht hn
      have hdrop : t.drop n <:+ s := (List.drop_suffix n t).trans ht
      have hlen : (t.drop n).length < fuel := by
        rw [List.length_drop]; omega
      simp [part1, segmentGo, hn, h2, ih (t.drop n) hdrop hlen]

theorem part1_length {next : List Nat → Option Nat} :
    ∀ fuel t r, part1 next fuel t = some r → r.length = t.length := by
  intro fuel
  induction fuel with
  | zero => intro t r hr; simp [part1] at hr
  | succ fuel ih =>
    intro t r hr
    cases hn : next t with
    | none =>
      simp only [part1, hn, Option.some.injEq] at hr
      rw [← hr]
    | some n =>
      simp only [part1, hn] at hr
      by_cases hle : n ≤ t.length
      · rw [if_pos hle] at hr
        obtain ⟨r0, h0, hr0⟩ := Option.map_eq_some'.mp hr
        have hlen := ih (t.drop n) r0 h0
        rw [← hr0, List.length_append, List.length_reverse,
          List.length_take_of_le hle, hlen, List.length_drop]
        omega
      · rw [if_neg hle] at hr
        exact absurd hr (by simp)

theorem flatten_map_reverse_reverse (L : List (List Nat)) :
    ((L.map List.reverse).flatten).reverse = L.reverse.flatten := by
  rw [List.reverse_flatten, List.map_map]
  have hc : List.reverse ∘ List.reverse = (id : List Nat → List Nat) := by
    funext x; simp
  rw [hc, List.map_id]

theorem reverse_eq_flatten_reverse {next : List Nat → Option Nat} {s : List Nat}
    (h : segTotalOn next s = true) :
    reverse_grapheme_clusters_in_place next s =
      some ((segment next s).reverse).flatten := by
  unfold reverse_grapheme_clusters_in_place
  rw [part1_eq_segmentGo h (s.length + 1) s (List.suffix_refl s) (Nat.lt_succ_self _)]
  rw [Option.map_some']
  rw [flatten_map_reverse_reverse]
  rfl

theorem utf8CharOk_pos : ∀ {l : List Nat} {n : Nat},
    utf8CharOk l = some n → 1 ≤ n ∧ n ≤ l.length := by
  intro l n h
  rcases l with _ | ⟨b0, _ | ⟨b1, _ | ⟨b2, _ | ⟨b3, t⟩⟩⟩⟩
  · simp [utf8CharOk] at h
  all_goals
    simp only [utf8CharOk] at h
    split_ifs at h <;> simp_all <;> omega

theorem utf8CharOk_append {a b : List Nat} {n : Nat} (h : utf8CharOk a = some n) :
    utf8CharOk (a ++ b) = some n := by
  rcases a with _ | ⟨b0, _ | ⟨b1, _ | ⟨b2, _ | ⟨b3, t⟩⟩⟩⟩
  · simp [utf8CharOk] at h
  all_goals
    simp only [utf8CharOk, List.cons_append, List.nil_append] at h ⊢
    split_ifs at h <;> simp_all
    all_goals split_ifs <;> first | rfl | (exfalso; omega)

theorem validUtf8Go_irrel : ∀ f1 f2 l, l.length ≤ f1 → l.length ≤ f2 →
    validUtf8Go f1 l = validUtf8Go f2 l := by
  intro f1
  induction f1 with
  | zero =>
    intro f2 l h1 _
    have hl : l = [] := List.eq_nil_of_length_eq_zero (Nat.le_zero.mp h1)
    subst hl
    cases f2 with
    | zero => rfl
    | succ f2 => simp [validUtf8Go, utf8CharOk]
  | succ f1 ih =>
    intro f2 l h1 h2
    cases hc : utf8CharOk l with
    | none =>
      cases f2 with
      | zero =>
        have hl : l = [] := List.eq_nil_of_length_eq_zero (Nat.le_zero.mp h2)
        subst hl
        simp [validUtf8Go, utf8CharOk]
      | succ f2 => simp [validUtf8Go, hc]
    | some n =>
      obtain ⟨hn1, hn2⟩ := utf8CharOk_pos hc
      cases f2 with
      | zero => omega
      | succ f2 =>
        simp only [validUtf8Go, hc]
        exact ih f2 (l.drop n) (by rw [List.length_drop]; omega)
          (by rw [List.length_drop]; omega)

theorem validUtf8_unfold (l : List Nat) :
    validUtf8 l =
      match utf8CharOk l with
      | none => l.isEmpty
      | some n => validUtf8 (l.drop n) := by
  cases hc : utf8CharOk l with
  | none =>
    show validUtf8 l = l.isEmpty
    unfold validUtf8
    cases l with
    | nil => rfl
    | cons b t => rw [List.length_cons, validUtf8Go, hc]
  | some n =>
    obtain ⟨hn1, hn2⟩ := utf8CharOk_pos hc
    show validUtf8 l = validUtf8 (l.drop n)
    unfold validUtf8
    cases l with
    | nil => simp [utf8CharOk] at hc
    | cons b t =>
      rw [List.length_cons, validUtf8Go, hc]
      exact validUtf8Go_irrel _ _ _
        (by rw [List.length_drop]; simp only [List.length_cons]; omega)
        Nat.le.refl

theorem validUtf8_append {b : List Nat} (hb : validUtf8 b = true) :
    ∀ {a : List Nat}, validUtf8 a = true → validUtf8 (a ++ b) = true := by
  have main : ∀ k (a : List Nat), a.length ≤ k → validUtf8 a = true →
      validUtf8 (a ++ b) = true := by
    intro k
    induction k with
    | zero =>
      intro a hk _
      have hnil : a = [] := List.eq_nil_of_length_eq_zero (Nat.le_zero.mp hk)
      subst hnil
      simpa using hb
    | succ k ih =>
      intro a hk hva
      rw [validUtf8_unfold] at hva
      cases hc : utf8CharOk a with
      | none =>
        rw [hc] at hva
        have hnil : a = [] := by simpa [List.isEmpty_iff] using hva
        subst hnil
        simpa using hb
      | some n =>
        rw [hc] at hva
        obtain ⟨hn1, hn2⟩ := utf8CharOk_pos hc
        have hstep : validUtf8 (a ++ b) = validUtf8 ((a ++ b).drop n) := by
          rw [validUtf8_unfold, utf8CharOk_append hc]
        rw [hstep, List.drop_append_of_le_length hn2]
        exact ih (a.drop n) (by rw [List.length_drop]; omega) hva
  intro a hva
  exact main a.length a Nat.le.refl hva

theorem validUtf8_flatten : ∀ {L : List (List Nat)},
    (∀ c ∈ L, validUtf8 c = true) → validUtf8 L.flatten = true := by
  intro L
  induction L with
  | nil => intro _; rfl
  | cons c L ih =>
    intro h
    rw [List.flatten_cons]
    exact validUtf8_append
      (ih fun x hx => h x (List.mem_cons_of_mem c hx))
      (h c (List.mem_cons_self c L))

theorem segmentGo_valid {next : List Nat → Option Nat} {s : List Nat}
    (hu : segUtf8On next s = true) :
    ∀ fuel t, t <:+ s → validUtf8 t = true →
      ∀ c ∈ segmentGo next fuel t, validUtf8 c = true := by
  intro fuel
  induction fuel with
  | zero => intro t _ _ c hc; simp [segmentGo] at hc
  | succ fuel ih =>
    intro t ht hv c hc
    cases hn : next t with
    | none => simp only [segmentGo, hn, List.not_mem_nil] at hc
    | some n =>
      obtain ⟨hvt, hvd⟩ := segUtf8On_some hu ht hn hv
      simp only [segmentGo, hn, List.mem_cons] at hc
      rcases hc with rfl | hc
      · exact hvt
      · exact ih (t.drop n) ((List.drop_suffix n t).trans ht) hvd c hc

/-! ### Claims -/

/-- C1: for every buffer and every segmenter satisfying the contract on it,
`reverse_grapheme_clusters_in_place` succeeds and the resulting buffer equals
the concatenation of the grapheme clusters of the original buffer taken in
reverse order, each cluster's byte content unchanged; the clusters are
exactly a partition of the original buffer. -/
theorem c1_cluster_order_reversed (next : List Nat → Option Nat) (s : List Nat)
    (h : segTotalOn next s = true) :
    (segment next s).flatten = s ∧
    reverse_grapheme_clusters_in_place next s =
      some ((segment next s).reverse).flatten :=
  ⟨segment_flatten h, reverse_eq_flatten_reverse h⟩

/-- C1 witness: the crate's combining-mark test input, `mañana`. -/
theorem c1_witness :
    segTotalOn uaxNext [109, 97, 110, 204, 131, 97, 110, 97] = true ∧
    (segment uaxNext [109, 97, 110, 204, 131, 97, 110, 97]).flatten =
      [109, 97, 110, 204, 131, 97, 110, 97] ∧
    reverse_grapheme_clusters_in_place uaxNext
        [109, 97, 110, 204, 131, 97, 110, 97] =
      some ((segment uaxNext [109, 97, 110, 204, 131, 97, 110, 97]).reverse).flatten :=
  ⟨by decide, (c1_cluster_order_reversed uaxNext _ (by decide)).1,
    (c1_cluster_order_reversed uaxNext _ (by decide)).2⟩

/-- C2: the two-pass implementation computes exactly the same result as the
naive reference that collects the grapheme clusters and concatenates them in
reverse order, for every buffer on which the segmenter meets its contract. -/
theorem c2_two_pass_refines_naive (next : List Nat → Option Nat) (s : List Nat)
    (h : segTotalOn next s = true) :
    reverse_grapheme_clusters_in_place next s = some (naive_reverse next s) :=
  reverse_eq_flatten_reverse h

/-- C2 witness: the crate's multi-byte test input `¡Hola!`. -/
theorem c2_witness :
    segTotalOn uaxNext [194, 161, 72, 111, 108, 97, 33] = true ∧
    naive_reverse uaxNext [194, 161, 72, 111, 108, 97, 33] =
      [33, 97, 108, 111, 72, 194, 161] ∧
    reverse_grapheme_clusters_in_place uaxNext [194, 161, 72, 111, 108, 97, 33] =
      some (naive_reverse uaxNext [194, 161, 72, 111, 108, 97, 33]) :=
  ⟨by decide, by decide, c2_two_pass_refines_naive uaxNext _ (by decide)⟩

/-- C3 fails on the code: under the Unicode segmentation rules the spec cites
(GB3: CR LF is one cluster; GB4/GB5: LF and CR are otherwise clusters by
themselves), the valid buffer `[0x0A, 0x0D]` (LF CR) reverses to CR LF, and
CR LF — now a single cluster — reverses to itself, so applying the operation
twice yields CR LF, not the original LF CR. -/
theorem c3_counterexample :
    validUtf8 [10, 13] = true ∧
    segTotalOn uaxNext [10, 13] = true ∧
    segTotalOn uaxNext [13, 10] = true ∧
    reverse_grapheme_clusters_in_place uaxNext [10, 13] = some [13, 10] ∧
    (reverse_grapheme_clusters_in_place uaxNext [10, 13]).bind
        (reverse_grapheme_clusters_in_place uaxNext) = some [13, 10] ∧
    ¬ (reverse_grapheme_clusters_in_place uaxNext [10, 13]).bind
        (reverse_grapheme_clusters_in_place uaxNext) = some [10, 13] := by
  decide

/-- C3 (amended): the operation is an involution on every buffer whose
reversal re-segments into exactly the reversed cluster list of the original
buffer (in particular whenever no cluster boundary changes across the
reversal; the CR LF merge above shows the general claim is false). -/
theorem c3_involution_on_stable (next : List Nat → Option Nat) (s r : List Nat)
    (hs : segTotalOn next s = true) (hr : segTotalOn next r = true)
    (_hout : reverse_grapheme_clusters_in_place next s = some r)
    (hstable : segment next r = (segment next s).reverse) :
    reverse_grapheme_clusters_in_place next r = some s := by
  rw [reverse_eq_flatten_reverse hr, hstable, List.reverse_reverse,
    segment_flatten hs]

/-- C3 witness: reversing the reversal of `mañana` gives it back. -/
theorem c3_witness :
    reverse_grapheme_clusters_in_place uaxNext
        [97, 110, 97, 110, 204, 131, 97, 109] =
      some [109, 97, 110, 204, 131, 97, 110, 97] :=
  c3_involution_on_stable uaxNext [109, 97, 110, 204, 131, 97, 110, 97]
    [97, 110, 97, 110, 204, 131, 97, 109]
    (by decide) (by decide) (by decide) (by decide)

/-- C4: whenever `reverse_grapheme_clusters_in_place` returns a buffer, its
byte length equals the input's byte length — for every segmenter and every
input, with no contract assumption. -/
theorem c4_length_preserved (next : List Nat → Option Nat) (s r : List Nat)
    (h : reverse_grapheme_clusters_in_place next s = some r) :
    r.length = s.length := by
  unfold reverse_grapheme_clusters_in_place at h
  obtain ⟨r0, h0, hr0⟩ := Option.map_eq_some'.mp h
  rw [← hr0, List.length_reverse]
  exact part1_length (s.length + 1) s r0 h0

/-- C4 witness: the crate's emoji test input, two four-byte clusters. -/
theorem c4_witness :
    reverse_grapheme_clusters_in_place uaxNext
        [240, 159, 141, 173, 240, 159, 141, 174] =
      some [240, 159, 141, 174, 240, 159, 141, 173] ∧
    ([240, 159, 141, 174, 240, 159, 141, 173] : List Nat).length =
      ([240, 159, 141, 173, 240, 159, 141, 174] : List Nat).length :=
  ⟨by decide, c4_length_preserved uaxNext _ _ (by decide)⟩

/-- C5: on a valid UTF-8 buffer, with a segmenter meeting both contract
parts, the operation succeeds and its result is again valid UTF-8 — the
final debug assertion never fails. -/
theorem c5_validity_preserved (next : List Nat → Option Nat) (s : List Nat)
    (h : segTotalOn next s = true) (hu : segUtf8On next s = true)
    (hv : validUtf8 s = true) :
    ∃ r, reverse_grapheme_clusters_in_place next s = some r ∧
      validUtf8 r = true := by
  refine ⟨((segment next s).reverse).flatten, reverse_eq_flatten_reverse h, ?_⟩
  apply validUtf8_flatten
  intro c hc
  rw [List.mem_reverse] at hc
  exact segmentGo_valid hu (s.length + 1) s (List.suffix_refl s) hv c hc

/-- C5 witness: `¡Hola!`. -/
theorem c5_witness :
    segTotalOn uaxNext [194, 161, 72, 111, 108, 97, 33] = true ∧
    segUtf8On uaxNext [194, 161, 72, 111, 108, 97, 33] = true ∧
    validUtf8 [194, 161, 72, 111, 108, 97, 33] = true ∧
    ∃ r, reverse_grapheme_clusters_in_place uaxNext
        [194, 161, 72, 111, 108, 97, 33] = some r ∧ validUtf8 r = true :=
  ⟨by decide, by decide, by decide,
    c5_validity_preserved uaxNext _ (by decide) (by decide) (by decide)⟩

/-- C6: under the segmenter contract the operation terminates on every
buffer (the embedding returns `some`, never the fuel-exhaustion or panic
`none`), and the segmentation scan covers the whole buffer exactly. -/
theorem c6_total_terminates (next : List Nat → Option Nat) (s : List Nat)
    (h : segTotalOn next s = true) :
    (reverse_grapheme_clusters_in_place next s).isSome = true ∧
    (segment next s).flatten = s := by
  refine ⟨?_, segment_flatten h⟩
  rw [reverse_eq_flatten_reverse h]
  rfl

/-- C6 witness: the emoji test input. -/
theorem c6_witness :
    segTotalOn uaxNext [240, 159, 141, 173, 240, 159, 141, 174] = true ∧
    (reverse_grapheme_clusters_in_place uaxNext
        [240, 159, 141, 173, 240, 159, 141, 174]).isSome = true ∧
    (segment uaxNext [240, 159, 141, 173, 240, 159, 141, 174]).flatten =
      [240, 159, 141, 173, 240, 159, 141, 174] :=
  ⟨by decide, (c6_total_terminates uaxNext _ (by decide)).1,
    (c6_total_terminates uaxNext _ (by decide)).2⟩

/-- C7: on the empty buffer the operation is a no-op, for every segmenter
that reports no grapheme in the empty string. -/
theorem c7_empty_identity (next : List Nat → Option Nat)
    (h : next [] = none) :
    reverse_grapheme_clusters_in_place next [] = some [] := by
  show (part1 next (0 + 1) []).map List.reverse = some []
  rw [part1, h]
  rfl

/-- C7 witness: the concrete segmenter on the empty buffer. -/
theorem c7_witness : reverse_grapheme_clusters_in_place uaxNext [] = some [] :=
  c7_empty_identity uaxNext rfl

/-- C8: if every grapheme cluster of the buffer is exactly one byte, the
operation degenerates to plain whole-buffer byte reversal. -/
theorem c8_ascii_byte_reversal (next : List Nat → Option Nat) (s : List Nat)
    (h : segTotalOn next s = true)
    (h1 : ∀ c ∈ segment next s, c.length = 1) :
    reverse_grapheme_clusters_in_place next s = some s.reverse := by
  rw [reverse_eq_flatten_reverse h]
  congr 1
  have hmap : (segment next s).map List.reverse = segment next s := by
    have hid : (segment next s).map List.reverse = (segment next s).map id := by
      apply List.map_congr_left
      intro c hc
      obtain ⟨a, rfl⟩ := List.length_eq_one.mp (h1 c hc)
      rfl
    rw [hid, List.map_id]
  calc ((segment next s).reverse).flatten
      = (((segment next s).map List.reverse).flatten).reverse := by
        rw [flatten_map_reverse_reverse]
    _ = s.reverse := by rw [hmap, segment_flatten h]

/-- C8 witness: `Hello` reverses to `olleH`. -/
theorem c8_witness :
    segTotalOn uaxNext [72, 101, 108, 108, 111] = true ∧
    (∀ c ∈ segment uaxNext [72, 101, 108, 108, 111], c.length = 1) ∧
    reverse_grapheme_clusters_in_place uaxNext [72, 101, 108, 108, 111] =
      some ([72, 101, 108, 108, 111] : List Nat).reverse ∧
    ([72, 101, 108, 108, 111] : List Nat).reverse = [111, 108, 108, 101, 72] :=
  ⟨by decide, by decide,
    c8_ascii_byte_reversal uaxNext _ (by decide) (by decide), by decide⟩

/-- C9: on `mañana` the output is `anañam`: the combining tilde
(bytes `[204, 131]`) stays attached to its base letter `n` — the cluster
`[110, 204, 131]` is a cluster of the input and survives intact, as a
contiguous block, in the output — while the plain letters are reversed. -/
theorem c9_combining_mark_attached :
    reverse_grapheme_clusters_in_place uaxNext
        [109, 97, 110, 204, 131, 97, 110, 97] =
      some [97, 110, 97, 110, 204, 131, 97, 109] ∧
    segment uaxNext [109, 97, 110, 204, 131, 97, 110, 97] =
      [[109], [97], [110, 204, 131], [97], [110], [97]] ∧
    segment uaxNext [97, 110, 97, 110, 204, 131, 97, 109] =
      [[97], [110], [97], [110, 204, 131], [97], [109]] := by
  decide

/-- Helper for C10: under the segmenter contract, pass 1 never takes the
out-of-bounds branch of the split. -/
theorem part1Panics_false {next : List Nat → Option Nat} {s : List Nat}
    (h : segTotalOn next s = true) :
    ∀ fuel t, t <:+ s → part1Panics next fuel t = false := by
  intro fuel
  induction fuel with
  | zero => intro t _; rfl
  | succ fuel ih =>
    intro t ht
    cases hn : next t with
    | none => simp [part1Panics, hn]
    | some n =>
      obtain ⟨h1, h2⟩ := segTotalOn_some h ht hn
      simp only [part1Panics, hn, if_pos h2]
      exact ih (t.drop n) ((List.drop_suffix n t).trans ht)

/-- C10: under the segmenter contract, every cluster length reported during
the pass-1 scan satisfies `1 ≤ len ≤ tail.length`, so the split is always in
bounds (the panic branch of the embedding is unreachable) and the tail
strictly shrinks at every iteration. -/
theorem c10_pass1_split_safe (next : List Nat → Option Nat) (s : List Nat)
    (h : segTotalOn next s = true) :
    part1Panics next (s.length + 1) s = false ∧
    ∀ t, t <:+ s → ∀ n, next t = some n →
      1 ≤ n ∧ n ≤ t.length ∧ (t.drop n).length < t.length := by
  refine ⟨part1Panics_false h (s.length + 1) s (List.suffix_refl s), ?_⟩
  intro t ht n hn
  obtain ⟨h1, h2⟩ := segTotalOn_some h ht hn
  refine ⟨h1, h2, ?_⟩
  rw [List.length_drop]
  omega

/-- C10 witness: the combining-mark input. -/
theorem c10_witness :
    segTotalOn uaxNext [109, 97, 110, 204, 131, 97, 110, 97] = true ∧
    part1Panics uaxNext (([109, 97, 110, 204, 131, 97, 110, 97] : List Nat).length + 1)
      [109, 97, 110, 204, 131, 97, 110, 97] = false :=
  ⟨by decide, (c10_pass1_split_safe uaxNext _ (by decide)).1⟩

end UnicodeReverse
